import Mathlib

/-!
Shallow embedding of the VideoMerger program (src/video_merger.go).

The program is a linear pipeline: load a JSON config, resolve the list of
source videos (explicit list or a scan of ./source), render per-transition
title-card frames, encode each transition with an external tool, write a
concat file list, run the final concat, and clean up all temporary
artifacts via deferred removals.

Go machine integers are modelled as Int (with mod 2^8 at the uint8
conversions); strings as Lean String (Go strings.ToLower is modelled on
ASCII letters, which covers every extension the program compares against);
float64 values that the program only carries around (font size, anchored
text coordinates) are modelled as Rat since no float arithmetic is
performed on them beyond exact halving of an integer.
-/

namespace VideoMerger

/-- RGBA color with 8-bit channels, as Go image/color.RGBA. -/
structure RGBA where
  r : Nat
  g : Nat
  b : Nat
  a : Nat
deriving DecidableEq, Repr

/-- Characters that `fmt` scanning skips before a verb in Sscanf: the
`fmt` package's space table (0x09-0x0d, 0x20, 0x85, 0xa0, 0x1680,
0x2000-0x200a, 0x2028, 0x2029, 0x202f, 0x205f, 0x3000) minus newline
(0x0a), which `Sscanf` does not skip: an unmatched newline makes the
scan of the field error out, which a non-space non-hex character does
here too. A `\r\n` pair behaves the same way: the `\r` is consumed and
the `\n` then fails the field, while a lone `\r` is skipped as a
space, as below. -/
def isScanSpace (c : Char) : Bool :=
  let n := c.toNat
  n = 0x20 || n = 0x09 || n = 0x0b || n = 0x0c || n = 0x0d ||
    n = 0x85 || n = 0xa0 || n = 0x1680 ||
    (0x2000 ≤ n && n ≤ 0x200a) || n = 0x2028 || n = 0x2029 ||
    n = 0x202f || n = 0x205f || n = 0x3000

def skipSpaces (s : List Char) : List Char :=
  s.dropWhile isScanSpace

def isHexDigitChar (c : Char) : Bool :=
  (('0' ≤ c && c ≤ '9') || ('a' ≤ c && c ≤ 'f') || ('A' ≤ c && c ≤ 'F'))

def hexDigitVal (c : Char) : Nat :=
  if '0' ≤ c && c ≤ '9' then c.toNat - '0'.toNat
  else if 'a' ≤ c && c ≤ 'f' then c.toNat - 'a'.toNat + 10
  else if 'A' ≤ c && c ≤ 'F' then c.toNat - 'A'.toNat + 10
  else 0

/-- One `%02x` field of `fmt.Sscanf`: skip leading spaces, accept an
optional sign, then at most two hex digits (at most one after a sign,
since the sign counts toward the width of 2); fail with `none` if no
digit is available. Returns the scanned value and the rest of the
input. -/
def scanHexInt (s : List Char) : Option (Int × List Char) :=
  match skipSpaces s with
  | [] => none
  | c :: cs =>
    if c = '-' then
      match cs with
      | [] => none
      | d :: ds => if isHexDigitChar d then some (-(hexDigitVal d : Int), ds) else none
    else if c = '+' then
      match cs with
      | [] => none
      | d :: ds => if isHexDigitChar d then some ((hexDigitVal d : Int), ds) else none
    else if isHexDigitChar c then
      match cs with
      | [] => some ((hexDigitVal c : Int), [])
      | d :: ds =>
        if isHexDigitChar d then some ((16 * hexDigitVal c + hexDigitVal d : Int), ds)
        else some ((hexDigitVal c : Int), d :: ds)
    else none

/-- `fmt.Sscanf(hex, "#%02x%02x%02x", &r, &g, &b)` with the error ignored:
the literal `#` must match exactly; each later field is scanned in turn;
scanning stops at the first failing field and the variables not yet
assigned keep their zero value. -/
def sscanfHexColor (s : String) : Int × Int × Int :=
  match s.data with
  | '#' :: rest =>
    match scanHexInt rest with
    | none => (0, 0, 0)
    | some (r, rest1) =>
      match scanHexInt rest1 with
      | none => (r, 0, 0)
      | some (g, rest2) =>
        match scanHexInt rest2 with
        | none => (r, g, 0)
        | some (b, _) => (r, g, b)
  | _ => (0, 0, 0)

/-- Go conversion `uint8(x)` of an `int`: the low 8 bits. -/
def toUint8 (x : Int) : Nat :=
  (x % 256).toNat

/-- `hexToRGBA` from src/video_merger.go lines 48-52: scan the three
color components with Sscanf (ignoring its error) and build an RGBA
with alpha 255. -/
def hexToRGBA (hex : String) : RGBA :=
  let rgb := sscanfHexColor hex
  ⟨toUint8 rgb.1, toUint8 rgb.2.1, toUint8 rgb.2.2, 255⟩

/-- Modelled from the spec wording of the claim: a well-formed hex color
string is `#rrggbb`, i.e. a `#` followed by exactly six hex digits. -/
def specWellFormedHex (s : String) : Bool :=
  match s.data with
  | '#' :: rest => rest.length = 6 && rest.all isHexDigitChar
  | _ => false

/-- The scan of `hexToRGBA` fails before assigning any component. -/
def failsFirstHexField (s : String) : Bool :=
  match s.data with
  | '#' :: rest => (scanHexInt rest).isNone
  | _ => true

/-! ### Path helpers (Go path/filepath, on slash-separated paths) -/

/-- Helper for `filepathExt`: walk the path from the end (the input list
is the reversed path); stop at a path separator with no extension, or
at the final dot with the suffix accumulated so far. -/
def extAux : List Char → List Char → List Char
  | [], _ => []
  | c :: cs, acc =>
    if c = '/' then []
    else if c = '.' then '.' :: acc
    else extAux cs (c :: acc)

/-- Go `filepath.Ext`: the suffix beginning at the final dot in the final
slash-separated element of the path; empty if there is no dot. -/
def filepathExt (p : String) : String :=
  ⟨extAux p.data.reverse []⟩

/-- Go `filepath.Base`: the last element of the path, after removing
trailing slashes; "." for an empty path, "/" if the path is only
separators. -/
def filepathBase (p : String) : String :=
  if p = "" then "."
  else
    let rev := p.data.reverse.dropWhile (fun c => c = '/')
    if rev = [] then "/"
    else ⟨(rev.takeWhile (fun c => c != '/')).reverse⟩

/-- Go `unicode.ToLower` on one rune, as far as comparisons against the
four ASCII extensions can observe it. The only runes whose Unicode
simple lowercase is an ASCII letter are A-Z, U+0130 (LATIN CAPITAL
LETTER I WITH DOT ABOVE, which lowercases to `i`) and U+212A (KELVIN
SIGN, which lowercases to `k`); every other rune never lowercases into
the ASCII range, so its exact image cannot make the lowercased
extension equal to `.mp4`/`.mov`/`.avi`/`.mkv` and it is left
unchanged here. -/
def charToLowerGo (c : Char) : Char :=
  if c.toNat = 0x130 then Char.ofNat 0x69
  else if c.toNat = 0x212a then Char.ofNat 0x6b
  else if 'A' ≤ c && c ≤ 'Z' then Char.ofNat (c.toNat + 32)
  else c

/-- Go `strings.ToLower`: `unicode.ToLower` applied rune-wise. -/
def stringToLower (s : String) : String :=
  ⟨s.data.map charToLowerGo⟩

/-! ### Directory scan (`getVideoFiles`, src/video_merger.go lines 72-101) -/

/-- One entry produced by `filepath.WalkDir`: the joined path and whether
the entry is a directory. The walk visits entries in lexical order of
the directory tree; `getVideoFiles` sorts afterwards, so the embedding
takes the walked entries as an arbitrary list. Paths produced by
`filepath.WalkDir` come from `filepath.Join` and are therefore already
clean, so the `filepath.Clean` applied when appending is the identity
and is not repeated here. -/
structure Entry where
  path : String
  isDir : Bool
deriving DecidableEq, Repr

/-- The `allowedExt` set of src/video_merger.go lines 75-80. -/
def allowedExt (e : String) : Bool :=
  e = ".mp4" || e = ".mov" || e = ".avi" || e = ".mkv"

/-- Lexicographic comparison of character sequences by code point.
Go compares strings by UTF-8 bytes; UTF-8 byte order coincides with
code-point order, so this is the order `sort.Strings` uses. -/
def strLeb : List Char → List Char → Bool
  | [], _ => true
  | _ :: _, [] => false
  | a :: as, b :: bs =>
    if a.toNat < b.toNat then true
    else if b.toNat < a.toNat then false
    else strLeb as bs

/-- Go string `<=`, lexicographic. -/
def strLe (a b : String) : Bool :=
  strLeb a.data b.data

/-- Go `sort.Strings`: sort ascending in lexicographic string order. -/
def sortStrings (l : List String) : List String :=
  l.insertionSort (fun a b => strLe a b = true)

/-- `getVideoFiles` on the walked entries: keep non-directories whose
lowercased extension is recognized, then sort the collected paths. -/
def getVideoFiles (entries : List Entry) : List String :=
  sortStrings
    ((entries.filter
      (fun e => !e.isDir && allowedExt (stringToLower (filepathExt e.path)))).map
      (fun e => e.path))

/-! ### Configuration (the `Config` struct of src/video_merger.go) -/

structure Destination where
  output : String
  intermediateTextDir : String
deriving DecidableEq, Repr

structure FontConfig where
  path : String
  size : Rat
deriving DecidableEq, Repr

structure FrameConfig where
  width : Int
  height : Int
  rate : Int
deriving DecidableEq, Repr

structure TextConfig where
  color : String
  background : String
  duration : Int
deriving DecidableEq, Repr

structure Config where
  dest : Destination
  source : List String
  font : FontConfig
  frame : FrameConfig
  text : TextConfig
deriving DecidableEq, Repr

/-- Output path resolution (src/video_merger.go lines 119-125): use the
configured output, falling back to a timestamped default name. The
timestamp string is a parameter since it comes from the wall clock. -/
def resolveOutput (cfg : Config) (timestampName : String) : String :=
  if cfg.dest.output = "" then timestampName else cfg.dest.output

/-- Video list resolution (src/video_merger.go lines 128-136): take the
explicit `source` list; if it is empty, scan ./source (whose walked
entries are the `sourceEntries` parameter); then sort unconditionally. -/
def loadVideos (cfg : Config) (sourceEntries : List Entry) : List String :=
  let videos := cfg.source
  let videos := if videos.length = 0 then getVideoFiles sourceEntries else videos
  sortStrings videos

/-! ### File list assembly (src/video_merger.go lines 189-214) -/

/-- A single quote character, ASCII 39. -/
def squote : String :=
  String.singleton (Char.ofNat 39)

/-- One line of the concat file list, as written by
`tempFile.WriteString(fmt.Sprintf(..., path))`. -/
def fileLine (p : String) : String :=
  "file " ++ squote ++ p ++ squote ++ "\n"

/-- Name of the generated transition clip for gap `i`. -/
def transClipName (i : Nat) : String :=
  "text_transition_" ++ toString i ++ ".mp4"

/-- The loop over `videos` with its running index: for every video after
the first, first the transition-clip line, then the video line. -/
def fileListLoop (i : Nat) : List String → List String
  | [] => []
  | v :: vs =>
    ((if i > 0 then [fileLine (transClipName i)] else []) ++ [fileLine v]) ++
      fileListLoop (i + 1) vs

/-- The lines written to the concat file list, in order. -/
def buildFileList (videos : List String) : List String :=
  fileListLoop 0 videos

/-! ### Transition frame rendering (src/video_merger.go lines 156-177) -/

/-- The content drawn into one frame: a `gg` context of the configured
size, cleared to the background color, with the text drawn in the text
color and font, anchored (0.5, 0.5) at the center of the frame. Drawing
is deterministic in these parameters, so two frames with equal
descriptions are identical images. -/
structure FrameImage where
  width : Int
  height : Int
  bg : RGBA
  textColor : RGBA
  fontPath : String
  fontSize : Rat
  posX : Rat
  posY : Rat
  anchorX : Rat
  anchorY : Rat
  text : String
deriving DecidableEq, Repr

/-- Go `int` arithmetic wraps at 64 bits (two's complement, word-sized
`int`): reduce into [-2^63, 2^63). -/
def wrap64 (x : Int) : Int :=
  (x + 9223372036854775808) % 18446744073709551616 - 9223372036854775808

/-- Number of frames per transition:
`config.Frame.Rate * config.Text.Duration`, a Go `int` product (wraps
at 64 bits). The loop `for j := 0; j < numFrames; j++` runs
`max 0 numFrames` times. -/
def numFrames (cfg : Config) : Int :=
  wrap64 (cfg.frame.rate * cfg.text.duration)

lemma wrap64_eq_of_range {x : Int} (h1 : 0 ≤ x) (h2 : x < 9223372036854775808) :
    wrap64 x = x := by
  unfold wrap64
  rw [Int.emod_eq_of_lt (by omega) (by omega)]
  omega

/-- Decimal digits of `j`, zero-padded to width 5 (`%05d`). -/
def pad5 (j : Nat) : String :=
  let s := toString j
  ⟨List.replicate (5 - s.length) '0'⟩ ++ s

/-- Path of frame `j` of transition `i`:
`"%s/text_%d_frame_%05d.png"`. -/
def framePath (cfg : Config) (i j : Nat) : String :=
  cfg.dest.intermediateTextDir ++ "/text_" ++ toString i ++ "_frame_" ++ pad5 j ++ ".png"

/-- The image rendered in the body of the frame loop. The loop variable
`j` appears only in the frame path, not in the drawn content. -/
def renderFrame (cfg : Config) (text : String) : FrameImage :=
  { width := cfg.frame.width
    height := cfg.frame.height
    bg := hexToRGBA cfg.text.background
    textColor := hexToRGBA cfg.text.color
    fontPath := cfg.font.path
    fontSize := cfg.font.size
    posX := (cfg.frame.width : Rat) / 2
    posY := (cfg.frame.height : Rat) / 2
    anchorX := 1 / 2
    anchorY := 1 / 2
    text := text }

/-- The text of the transition before video `v`:
`fmt.Sprintf("Next: %s", filepath.Base(video))`. -/
def transitionText (v : String) : String :=
  "Next: " ++ filepathBase v

/-- The frames saved for transition `i` before video `v`: one
`(path, image)` pair per loop iteration `j = 0, ..., numFrames - 1`
(no iterations when `numFrames` is not positive, as in the Go loop). -/
def transitionFrames (cfg : Config) (i : Nat) (v : String) : List (String × FrameImage) :=
  (List.range (numFrames cfg).toNat).map
    (fun j => (framePath cfg i j, renderFrame cfg (transitionText v)))

/-- The outer frame-generation loop over `videos` with its running index,
skipping index 0 (`if i == 0 { continue }`). -/
def framesLoop (cfg : Config) (i : Nat) : List String → List (Nat × List (String × FrameImage))
  | [] => []
  | v :: vs =>
    (if i = 0 then [] else [(i, transitionFrames cfg i v)]) ++ framesLoop cfg (i + 1) vs

/-- All transitions rendered by the program, indexed by their gap. -/
def mainFrames (cfg : Config) (videos : List String) : List (Nat × List (String × FrameImage)) :=
  framesLoop cfg 0 videos

/-! ### Execution model of `main` with failure injection

`main` is a straight line of fallible operations; each `if err != nil`
prints the error and returns, and the `defer`red removals registered so
far run on every return. The embedding lists the fallible operations in
program order, with the artifacts each creates on success and the
deferred removals it registers on success. An oracle `ok : Nat → Bool`
says whether the k-th attempted operation succeeds; the run stops at the
first failure, then the registered cleanup runs. A failing external
encode leaves no clip (the tool's output artifact exists only on
success). -/

/-- Filesystem artifacts the program creates. -/
inductive Artifact where
  | intermediateDir : String → Artifact
  | frame : String → Nat → Nat → Artifact
  | filelist : Artifact
  | clip : Nat → Artifact
  | output : String → Artifact
deriving DecidableEq, Repr

/-- One fallible operation: what it creates and what deferred removals
it registers when it succeeds, and what it may leave behind when it
fails (a partially written file of an interrupted save or external
encode; the `defer` of its removal is registered only after the
success check, so a failing operation never registers cleanup). -/
structure Op where
  creates : List Artifact
  cleanup : List Artifact
  failCreates : List Artifact
deriving DecidableEq, Repr

/-- Does removing `d` remove `a`? `os.RemoveAll` on the intermediate
directory removes the directory and every frame inside it; the other
removals are `os.Remove` of a single artifact. -/
def removesWith (d a : Artifact) : Bool :=
  d = a ||
    (match d, a with
     | .intermediateDir p, .frame q _ _ => p = q
     | _, _ => false)

structure ExecState where
  fs : List Artifact
  cleanup : List Artifact
  attempted : Nat
  failed : Bool
deriving DecidableEq, Repr

def initState : ExecState :=
  ⟨[], [], 0, false⟩

/-- Run the operations in order: a successful operation adds its
artifacts and registers its deferred removals; the first failure stops
the run immediately (the function returns; later operations are never
attempted), possibly leaving the failing operation's partial output
behind with no cleanup registered for it. -/
def runOps (ok : Nat → Bool) : List Op → ExecState → ExecState
  | [], s => s
  | op :: rest, s =>
    if ok s.attempted then
      runOps ok rest
        { fs := s.fs ++ op.creates
          cleanup := s.cleanup ++ op.cleanup
          attempted := s.attempted + 1
          failed := s.failed }
    else
      { fs := s.fs ++ op.failCreates
        cleanup := s.cleanup
        attempted := s.attempted + 1
        failed := true }

/-- Artifacts still on disk after the deferred removals run. -/
def survivors (s : ExecState) : List Artifact :=
  s.fs.filter (fun a => !(s.cleanup.any (fun d => removesWith d a)))

/-- Frame-saving operations of transition `i`: one `SavePNG` per frame,
inside the intermediate directory, with no cleanup of its own (the
directory's `RemoveAll` covers it); a failing save may leave a partial
frame file, also inside the directory. -/
def frameOps (dir : String) (nF : Nat) (i : Nat) : List Op :=
  (List.range nF).map (fun j => ⟨[.frame dir i j], [], [.frame dir i j]⟩)

/-- The frame-generation loop as operations (skips index 0). -/
def frameOpsLoop (dir : String) (nF : Nat) (i : Nat) : List String → List Op
  | [] => []
  | _ :: vs => (if i = 0 then [] else frameOps dir nF i) ++ frameOpsLoop dir nF (i + 1) vs

/-- The second loop as operations: for `i > 0`, the external encode of
clip `i` — which registers `defer os.Remove(textVideo)` only after
`cmd.Run()` succeeds, so a failing encode may leave a partial clip
with no removal registered — and the write of the transition line;
then for every `i` the write of the video line. -/
def listOpsLoop (i : Nat) : List String → List Op
  | [] => []
  | _ :: vs =>
    (if i > 0 then [⟨[.clip i], [.clip i], [.clip i]⟩, ⟨[], [], []⟩] else []) ++
      [⟨[], [], []⟩] ++ listOpsLoop (i + 1) vs

/-- All fallible operations of `main`, in program order: read config,
parse config, the `getVideoFiles("./source")` scan (attempted exactly
when the explicit source list is empty; it creates nothing), `MkdirAll`
of the intermediate directory (deferring its `RemoveAll`; the tracked
directory itself does not exist when `MkdirAll` fails on it), font
load, the frame saves, `CreateTemp` of the file list (deferring its
removal), the encode/write loop, `Sync`, and the final concat that
creates the output (a failed concat may leave a partial output file,
which is not a temporary artifact). -/
def mainOps (cfg : Config) (videos : List String) (out : String) : List Op :=
  [⟨[], [], []⟩, ⟨[], [], []⟩] ++
  (if cfg.source.length = 0 then [⟨[], [], []⟩] else []) ++
  [⟨[.intermediateDir cfg.dest.intermediateTextDir],
    [.intermediateDir cfg.dest.intermediateTextDir], []⟩,
   ⟨[], [], []⟩] ++
  frameOpsLoop cfg.dest.intermediateTextDir (numFrames cfg).toNat 0 videos ++
  [⟨[.filelist], [.filelist], []⟩] ++
  listOpsLoop 0 videos ++
  [⟨[], [], []⟩, ⟨[.output out], [], [.output out]⟩]

/-- The whole run of `main` under the oracle `ok`. -/
def runMain (ok : Nat → Bool) (cfg : Config) (videos : List String) (out : String) : ExecState :=
  runOps ok (mainOps cfg videos out) initState

/-- Executable check that a list of strings is sorted ascending in the
lexicographic order `strLe`. -/
def isSortedStr : List String → Bool
  | [] => true
  | [_] => true
  | a :: b :: t => strLe a b && isSortedStr (b :: t)

/-! ### Order facts about `strLeb` -/

lemma strLeb_total : ∀ as bs : List Char, strLeb as bs = true ∨ strLeb bs as = true := by
  intro as
  induction as with
  | nil => intro bs; left; rfl
  | cons a as ih =>
    intro bs
    cases bs with
    | nil => right; rfl
    | cons b bs =>
      by_cases h1 : a.toNat < b.toNat
      · left; simp [strLeb, h1]
      · by_cases h2 : b.toNat < a.toNat
        · right; simp [strLeb, h2]
        · rcases ih bs with h | h
          · left; simp [strLeb, h1, h2, h]
          · right; simp [strLeb, h1, h2, h]

lemma strLeb_trans :
    ∀ as bs cs : List Char,
      strLeb as bs = true → strLeb bs cs = true → strLeb as cs = true := by
  intro as
  induction as with
  | nil => intro bs cs _ _; rfl
  | cons a as ih =>
    intro bs cs hab hbc
    cases bs with
    | nil => exact absurd hab (by simp [strLeb])
    | cons b bs =>
      cases cs with
      | nil => exact absurd hbc (by simp [strLeb])
      | cons c cs =>
        simp only [strLeb] at hab hbc ⊢
        split_ifs at hab hbc ⊢ <;>
          first
            | rfl
            | omega
            | exact ih bs cs hab hbc

instance : IsTotal String (fun a b => strLe a b = true) :=
  ⟨fun a b => strLeb_total a.data b.data⟩

instance : IsTrans String (fun a b => strLe a b = true) :=
  ⟨fun a b c => strLeb_trans a.data b.data c.data⟩

lemma getVideoFiles_sorted_rel (entries : List Entry) :
    List.Sorted (fun a b => strLe a b = true) (getVideoFiles entries) := by
  unfold getVideoFiles sortStrings
  exact List.sorted_insertionSort _ _

lemma isSortedStr_of_sorted :
    ∀ {l : List String}, List.Sorted (fun a b => strLe a b = true) l → isSortedStr l = true := by
  intro l
  induction l with
  | nil => intro _; rfl
  | cons a t ih =>
    intro h
    cases t with
    | nil => rfl
    | cons b t2 =>
      have hab : strLe a b = true :=
        (List.pairwise_cons.mp h).1 b (List.mem_cons_self b t2)
      have ht : isSortedStr (b :: t2) = true := ih (List.pairwise_cons.mp h).2
      simp [isSortedStr, hab, ht]

lemma sortStrings_getVideoFiles (entries : List Entry) :
    sortStrings (getVideoFiles entries) = getVideoFiles entries :=
  List.Sorted.insertionSort_eq (getVideoFiles_sorted_rel entries)

/-! ### Concrete inputs used by witnesses -/

def cfg0 : Config :=
  { dest := { output := "o.mp4", intermediateTextDir := "tmpdir" }
    source := ["b.mp4", "a.mp4"]
    font := { path := "f.ttf", size := 24 }
    frame := { width := 4, height := 2, rate := 1 }
    text := { color := "#ffffff", background := "#000000", duration := 1 } }

def entries0 : List Entry :=
  [⟨"src/b.mp4", false⟩, ⟨"src/a.MP4", false⟩, ⟨"src/film.AVİ", false⟩,
   ⟨"src/notes.txt", false⟩, ⟨"src/sub", true⟩]

def cfgEmptySource : Config :=
  { cfg0 with source := [] }

def videos0 : List String :=
  ["a/x.mp4", "b/y.mp4"]

def okAll : Nat → Bool :=
  fun _ => true

def okFail2 : Nat → Bool :=
  fun j => j != 2

def okFail7 : Nat → Bool :=
  fun j => j != 7

/-! ### C2: hex color parsing fallback -/

/-- C2 counterexample: `"#ff"` is not a well-formed `#rrggbb` string, yet
`hexToRGBA` returns red (255, 0, 0, 255), not the black fallback: the
`Sscanf` error is ignored and the components scanned before the failure
keep their values. -/
theorem hexToRGBA_malformed_not_black :
    specWellFormedHex "#ff" = false ∧
    hexToRGBA "#ff" = ⟨255, 0, 0, 255⟩ ∧
    hexToRGBA "#ff" ≠ ⟨0, 0, 0, 255⟩ := by
  decide

/-- C2 (amended): `hexToRGBA` returns black exactly on the malformed
inputs whose scan fails before assigning the first color component
(no leading `#`, or no hex digit where the first component starts);
a malformed input that partially scans keeps the scanned components. -/
theorem hexToRGBA_fallback_black (s : String) (h : failsFirstHexField s = true) :
    hexToRGBA s = ⟨0, 0, 0, 255⟩ := by
  unfold hexToRGBA sscanfHexColor
  unfold failsFirstHexField at h
  split
  next rest heq =>
    rw [heq] at h
    simp only [Option.isNone_iff_eq_none] at h
    rw [h]
    rfl
  next =>
    rfl

theorem hexToRGBA_fallback_black_witness :
    failsFirstHexField "not a color" = true ∧
    hexToRGBA "not a color" = ⟨0, 0, 0, 255⟩ :=
  ⟨by decide, hexToRGBA_fallback_black "not a color" (by decide)⟩

/-! ### C3: directory scan returns only recognized video files, sorted -/

/-- C3: every path returned by `getVideoFiles` comes from a
non-directory entry of the walk whose lowercased extension is one of
the four recognized ones, and the returned list is sorted
lexicographically. -/
theorem getVideoFiles_only_recognized_sorted (entries : List Entry) (p : String)
    (hp : p ∈ getVideoFiles entries) :
    isSortedStr (getVideoFiles entries) = true ∧
    ∃ e, e ∈ entries ∧ e.isDir = false ∧ e.path = p ∧
      allowedExt (stringToLower (filepathExt p)) = true := by
  refine ⟨isSortedStr_of_sorted (getVideoFiles_sorted_rel entries), ?_⟩
  unfold getVideoFiles sortStrings at hp
  rw [List.mem_insertionSort] at hp
  rcases List.mem_map.mp hp with ⟨e, he, rfl⟩
  rcases List.mem_filter.mp he with ⟨hmem, hpred⟩
  simp only [Bool.and_eq_true, Bool.not_eq_true'] at hpred
  exact ⟨e, hmem, hpred.1, rfl, hpred.2⟩

theorem getVideoFiles_only_recognized_sorted_witness :
    isSortedStr (getVideoFiles entries0) = true :=
  (getVideoFiles_only_recognized_sorted entries0 "src/a.MP4" (by decide)).1

/-! ### C10: extension recognition is case-insensitive -/

/-- C10: a path is in the scan result exactly when some walked file
entry carries it and the lowercased form of its extension is one of
`.mp4`, `.mov`, `.avi`, `.mkv` — so `.MP4`, `.Mov`, etc. are accepted. -/
theorem getVideoFiles_accepts_iff (entries : List Entry) (p : String) :
    p ∈ getVideoFiles entries ↔
      ∃ e, e ∈ entries ∧ e.path = p ∧ e.isDir = false ∧
        allowedExt (stringToLower (filepathExt p)) = true := by
  unfold getVideoFiles sortStrings
  rw [List.mem_insertionSort]
  constructor
  · intro hp
    rcases List.mem_map.mp hp with ⟨e, he, rfl⟩
    rcases List.mem_filter.mp he with ⟨hmem, hpred⟩
    simp only [Bool.and_eq_true, Bool.not_eq_true'] at hpred
    exact ⟨e, hmem, rfl, hpred.1, hpred.2⟩
  · rintro ⟨e, hmem, rfl, hdir, hext⟩
    exact List.mem_map.mpr ⟨e, List.mem_filter.mpr ⟨hmem, by simp [hdir, hext]⟩, rfl⟩

theorem getVideoFiles_accepts_iff_witness :
    "src/film.AVİ" ∈ getVideoFiles entries0 :=
  (getVideoFiles_accepts_iff entries0 "src/film.AVİ").mpr
    ⟨⟨"src/film.AVİ", false⟩, by decide, rfl, rfl, by decide⟩

/-! ### C4: the consumed video sequence is always sorted -/

/-- C4: whatever the config and whatever the scan of ./source returns,
the list of videos the pipeline consumes is sorted lexicographically
(`sort.Strings` runs unconditionally after input resolution). -/
theorem loadVideos_always_sorted (cfg : Config) (entries : List Entry) :
    isSortedStr (loadVideos cfg entries) = true := by
  apply isSortedStr_of_sorted
  unfold loadVideos sortStrings
  exact List.sorted_insertionSort _ _

/-! ### C5: explicit source list takes priority over the scan -/

/-- C5: a non-empty explicit source list is used as-is (sorted), and the
scan result plays no role; only an empty explicit list makes the
program use the scan of ./source. -/
theorem loadVideos_source_priority (cfg : Config) (e1 e2 : List Entry) :
    (cfg.source ≠ [] →
      loadVideos cfg e1 = sortStrings cfg.source ∧ loadVideos cfg e1 = loadVideos cfg e2) ∧
    (cfg.source = [] → loadVideos cfg e1 = getVideoFiles e1) := by
  constructor
  · intro h
    have hlen : ¬cfg.source.length = 0 := by simpa using h
    constructor <;> simp [loadVideos, hlen]
  · intro h
    simp [loadVideos, h, sortStrings_getVideoFiles]

theorem loadVideos_source_priority_witness :
    loadVideos cfg0 entries0 = sortStrings cfg0.source :=
  ((loadVideos_source_priority cfg0 entries0 []).1 (by decide)).1

/-! ### C1: structure of the concat file list -/

lemma fileListLoop_length (vs : List String) :
    ∀ k, 0 < k → (fileListLoop k vs).length = 2 * vs.length := by
  induction vs with
  | nil => intro k _; rfl
  | cons v vs ih =>
    intro k hk
    have hk1 : k > 0 := hk
    simp only [fileListLoop, if_pos hk1, List.length_append, List.length_cons,
      List.length_nil, List.length_singleton]
    rw [ih (k + 1) (Nat.succ_pos k)]
    simp [List.length]
    omega

lemma fileListLoop_cons_pos (k : Nat) (hk : 0 < k) (v : String) (vs : List String) :
    fileListLoop k (v :: vs) =
      fileLine (transClipName k) :: fileLine v :: fileListLoop (k + 1) vs := by
  simp [fileListLoop, if_pos hk]

lemma fileListLoop_get_even (vs : List String) :
    ∀ k j, 0 < k → j < vs.length →
      (fileListLoop k vs).get? (2 * j) = some (fileLine (transClipName (k + j))) := by
  induction vs with
  | nil => intro k j _ hj; exact absurd hj (by simp)
  | cons v vs ih =>
    intro k j hk hj
    rw [fileListLoop_cons_pos k hk]
    cases j with
    | zero => rfl
    | succ j =>
      have h2 : 2 * (j + 1) = (2 * j) + 1 + 1 := by omega
      have h3 : k + (j + 1) = (k + 1) + j := by omega
      rw [h2, h3]
      simp only [List.get?_cons_succ]
      exact ih (k + 1) j (Nat.succ_pos k) (by simpa using hj)

lemma fileListLoop_get_odd (vs : List String) :
    ∀ k j (hj : j < vs.length), 0 < k →
      (fileListLoop k vs).get? (2 * j + 1) = some (fileLine (vs.get ⟨j, hj⟩)) := by
  induction vs with
  | nil => intro k j hj _; exact absurd hj (by simp)
  | cons v vs ih =>
    intro k j hj hk
    rw [fileListLoop_cons_pos k hk]
    cases j with
    | zero => rfl
    | succ j =>
      have h2 : 2 * (j + 1) + 1 = (2 * j + 1) + 1 + 1 := by omega
      rw [h2]
      simp only [List.get?_cons_succ]
      exact ih (k + 1) j (by simpa using hj) (Nat.succ_pos k)

/-- C1: for a non-empty list of n videos the concat file list has
exactly 2n - 1 entries, with the i-th video line at position 2i and the
i-th transition line (i ≥ 1) at position 2i - 1 — so the order is
video 0, transition 1, video 1, transition 2, video 2, ... -/
theorem fileList_structure (videos : List String) (h : videos ≠ []) :
    (buildFileList videos).length = 2 * videos.length - 1 ∧
    (∀ i (hi : i < videos.length),
      (buildFileList videos).get? (2 * i) = some (fileLine (videos.get ⟨i, hi⟩))) ∧
    (∀ i, 0 < i → i < videos.length →
      (buildFileList videos).get? (2 * i - 1) = some (fileLine (transClipName i))) := by
  rcases videos with _ | ⟨v, vs⟩
  · exact absurd rfl h
  have hbuild : buildFileList (v :: vs) = fileLine v :: fileListLoop 1 vs := by
    simp [buildFileList, fileListLoop]
  refine ⟨?_, ?_, ?_⟩
  · rw [hbuild]
    simp only [List.length_cons, fileListLoop_length vs 1 Nat.one_pos]
    omega
  · intro i hi
    rw [hbuild]
    cases i with
    | zero => rfl
    | succ i =>
      have h2 : 2 * (i + 1) = (2 * i + 1) + 1 := by omega
      rw [h2]
      simp only [List.get?_cons_succ]
      exact fileListLoop_get_odd vs 1 i (by simpa using hi) Nat.one_pos
  · intro i hpos hi
    rw [hbuild]
    cases i with
    | zero => exact absurd hpos (by omega)
    | succ i =>
      have h2 : 2 * (i + 1) - 1 = (2 * i) + 1 := by omega
      rw [h2]
      simp only [List.get?_cons_succ]
      rw [fileListLoop_get_even vs 1 i Nat.one_pos (by simpa using hi), Nat.add_comm 1 i]

theorem fileList_structure_witness :
    (buildFileList ["a.mp4", "b.mp4", "c.mp4"]).length =
      2 * (["a.mp4", "b.mp4", "c.mp4"] : List String).length - 1 :=
  (fileList_structure ["a.mp4", "b.mp4", "c.mp4"] (by decide)).1

/-! ### C6: frame count and identical frames per transition -/

/-- C6: each transition renders exactly `Frame.Rate * Text.Duration`
frames — for non-negative values whose product fits a 64-bit `int`,
i.e. whenever the Go multiplication does not wrap — and all frames of
one transition are the same image (same size, background, colors,
font, and centered text). -/
theorem transitionFrames_count_const (cfg : Config) (i : Nat) (v : String)
    (hr : 0 ≤ cfg.frame.rate) (hd : 0 ≤ cfg.text.duration)
    (hb : cfg.frame.rate * cfg.text.duration < 9223372036854775808) :
    ((transitionFrames cfg i v).length : Int) = cfg.frame.rate * cfg.text.duration ∧
    ∀ p ∈ transitionFrames cfg i v, ∀ q ∈ transitionFrames cfg i v,
      Prod.snd p = Prod.snd q := by
  constructor
  · simp only [transitionFrames, List.length_map, List.length_range]
    rw [numFrames, wrap64_eq_of_range (mul_nonneg hr hd) hb,
      Int.toNat_of_nonneg (mul_nonneg hr hd)]
  · intro p hp q hq
    rcases List.mem_map.mp hp with ⟨jp, _, rfl⟩
    rcases List.mem_map.mp hq with ⟨jq, _, rfl⟩
    rfl

theorem transitionFrames_count_const_witness :
    ((transitionFrames cfg0 1 "v.mp4").length : Int) = cfg0.frame.rate * cfg0.text.duration :=
  (transitionFrames_count_const cfg0 1 "v.mp4" (by decide) (by decide) (by decide)).1

/-! ### C8: transition text names the upcoming video -/

/-- All frames in `fr` carry the text `t`. -/
def allTextIs (fr : List (String × FrameImage)) (t : String) : Bool :=
  fr.all (fun p => (Prod.snd p).text == t)

lemma allTextIs_transitionFrames (cfg : Config) (i : Nat) (v : String) :
    allTextIs (transitionFrames cfg i v) (transitionText v) = true := by
  simp only [allTextIs, List.all_eq_true, transitionFrames, List.mem_map]
  rintro p ⟨j, _, rfl⟩
  exact beq_self_eq_true _

lemma framesLoop_mem (cfg : Config) :
    ∀ (vs : List String) (k i : Nat) (fr : List (String × FrameImage)),
      (i, fr) ∈ framesLoop cfg k vs →
      k ≤ i ∧ i - k < vs.length ∧ 0 < i ∧
        fr = transitionFrames cfg i (vs.getD (i - k) "") := by
  intro vs
  induction vs with
  | nil => intro k i fr h; exact absurd h (by simp [framesLoop])
  | cons v vs ih =>
    intro k i fr h
    simp only [framesLoop, List.mem_append] at h
    rcases h with h | h
    · by_cases hk : k = 0
      · rw [if_pos hk] at h
        exact absurd h (by simp)
      · rw [if_neg hk] at h
        have hpair := List.mem_singleton.mp h
        have hi : i = k := congrArg Prod.fst hpair
        have hfr : fr = transitionFrames cfg k v := congrArg Prod.snd hpair
        refine ⟨hi.ge, ?_, ?_, ?_⟩
        · rw [hi, Nat.sub_self]
          simp
        · rw [hi]
          exact Nat.pos_of_ne_zero hk
        · rw [hfr, hi, Nat.sub_self]
          rfl
    · rcases ih (k + 1) i fr h with ⟨hki, hlt, hpos, hfr⟩
      refine ⟨by omega, by simp; omega, hpos, ?_⟩
      rw [hfr]
      have : i - k = (i - (k + 1)) + 1 := by omega
      rw [this]
      rfl

/-- C8: every rendered transition belongs to some gap `i ≥ 1`, and each
of its frames shows `"Next: "` followed by the base name of video `i`,
the video that follows the transition. -/
theorem mainFrames_text_upcoming (cfg : Config) (videos : List String) (i : Nat)
    (fr : List (String × FrameImage)) (h : (i, fr) ∈ mainFrames cfg videos) :
    0 < i ∧ i < videos.length ∧
      allTextIs fr ("Next: " ++ filepathBase (videos.getD i "")) = true := by
  rcases framesLoop_mem cfg videos 0 i fr h with ⟨_, hlt, hpos, hfr⟩
  rw [Nat.sub_zero] at hlt hfr
  subst hfr
  exact ⟨hpos, hlt, allTextIs_transitionFrames cfg i (videos.getD i "")⟩

theorem mainFrames_text_upcoming_witness :
    0 < 1 ∧ 1 < videos0.length ∧
      allTextIs (transitionFrames cfg0 1 "b/y.mp4")
        ("Next: " ++ filepathBase (videos0.getD 1 "")) = true :=
  mainFrames_text_upcoming cfg0 videos0 1 (transitionFrames cfg0 1 "b/y.mp4")
    (List.Mem.head _)

/-! ### C7: cleanup of temporary artifacts on every exit path -/

/-- Is the artifact the final output (the only non-temporary artifact)? -/
def isOutput : Artifact → Bool
  | .output _ => true
  | _ => false

/-- Is the artifact a transition clip (an external encode's output)? -/
def isClip : Artifact → Bool
  | .clip _ => true
  | _ => false

/-- `a` is the output, or some registered removal deletes it. -/
def covers (cl : List Artifact) (a : Artifact) : Bool :=
  isOutput a || cl.any (fun d => removesWith d a)

/-- All deferred removals registered by a list of operations. -/
def cleanups (ops : List Op) : List Artifact :=
  (ops.map Op.cleanup).flatten

/-- Every operation's creations are covered by the removals registered
up to and including the operation itself (or are the output), and its
possible leftovers on failure are covered by the removals registered
before it — or are a transition clip, the one kind of partial output
no removal ever covers. -/
def goodOps : List Op → List Artifact → Prop
  | [], _ => True
  | op :: rest, cl =>
    (∀ a ∈ op.creates, covers (cl ++ op.cleanup) a = true) ∧
    (∀ a ∈ op.failCreates, covers cl a = true ∨ isClip a = true) ∧
    goodOps rest (cl ++ op.cleanup)

lemma covers_mono {cl cl' : List Artifact} (h : ∀ d ∈ cl, d ∈ cl') (a : Artifact) :
    covers cl a = true → covers cl' a = true := by
  simp only [covers, Bool.or_eq_true, List.any_eq_true]
  rintro (ho | ⟨d, hd, hr⟩)
  · exact Or.inl ho
  · exact Or.inr ⟨d, h d hd, hr⟩

lemma goodOps_append {xs ys : List Op} :
    ∀ {cl : List Artifact}, goodOps xs cl → goodOps ys (cl ++ cleanups xs) →
      goodOps (xs ++ ys) cl := by
  induction xs with
  | nil =>
    intro cl _ hy
    simpa [cleanups] using hy
  | cons op xs ih =>
    intro cl hx hy
    refine ⟨hx.1, hx.2.1, ih hx.2.2 ?_⟩
    have hcl : (cl ++ op.cleanup) ++ cleanups xs = cl ++ cleanups (op :: xs) := by
      simp [cleanups, List.append_assoc]
    rw [hcl]
    exact hy

lemma goodOps_of_covered (cl0 : List Artifact) :
    ∀ (ops : List Op) (cl : List Artifact), (∀ d ∈ cl0, d ∈ cl) →
      (∀ op ∈ ops,
        (∀ a ∈ op.creates, covers cl0 a = true ∨ covers op.cleanup a = true) ∧
        (∀ a ∈ op.failCreates, covers cl0 a = true ∨ isClip a = true)) →
      goodOps ops cl := by
  intro ops
  induction ops with
  | nil => intro cl _ _; trivial
  | cons op rest ih =>
    intro cl hsub hops
    refine ⟨?_, ?_, ?_⟩
    · intro a ha
      rcases (hops op (List.mem_cons_self op rest)).1 a ha with hc | hc
      · exact covers_mono (fun d hd => List.mem_append_left _ (hsub d hd)) a hc
      · exact covers_mono (fun d hd => List.mem_append_right _ hd) a hc
    · intro a ha
      rcases (hops op (List.mem_cons_self op rest)).2 a ha with hc | hc
      · exact Or.inl (covers_mono hsub a hc)
      · exact Or.inr hc
    · exact ih (cl ++ op.cleanup) (fun d hd => List.mem_append_left _ (hsub d hd))
        (fun o ho => hops o (List.mem_cons_of_mem op ho))

lemma runOps_inv (ok : Nat → Bool) :
    ∀ (ops : List Op) (s : ExecState),
      (∀ a ∈ s.fs, covers s.cleanup a = true ∨ (isClip a = true ∧ s.failed = true)) →
      goodOps ops s.cleanup →
      ∀ a ∈ (runOps ok ops s).fs,
        covers (runOps ok ops s).cleanup a = true ∨
          (isClip a = true ∧ (runOps ok ops s).failed = true) := by
  intro ops
  induction ops with
  | nil => intro s hs _; exact hs
  | cons op rest ih =>
    intro s hs hgood
    simp only [runOps]
    by_cases hok : ok s.attempted = true
    · rw [if_pos hok]
      apply ih
      · intro a ha
        rcases List.mem_append.mp ha with ha | ha
        · rcases hs a ha with hc | hc
          · exact Or.inl (covers_mono (fun d hd => List.mem_append_left _ hd) a hc)
          · exact Or.inr hc
        · exact Or.inl (hgood.1 a ha)
      · exact hgood.2.2
    · rw [if_neg hok]
      intro a ha
      rcases List.mem_append.mp ha with ha | ha
      · rcases hs a ha with hc | hc
        · exact Or.inl hc
        · exact Or.inr ⟨hc.1, rfl⟩
      · rcases hgood.2.1 a ha with hc | hc
        · exact Or.inl hc
        · exact Or.inr ⟨hc, rfl⟩

lemma cleanups_append (xs ys : List Op) :
    cleanups (xs ++ ys) = cleanups xs ++ cleanups ys := by
  simp [cleanups]

lemma cleanups_frameOps (dir : String) (nF k : Nat) :
    cleanups (frameOps dir nF k) = [] := by
  simp only [cleanups, frameOps, List.map_map]
  rw [List.flatten_eq_nil_iff]
  intro l hl
  rcases List.mem_map.mp hl with ⟨j, _, rfl⟩
  rfl

lemma cleanups_frameOpsLoop (dir : String) (nF : Nat) :
    ∀ (vs : List String) (k : Nat), cleanups (frameOpsLoop dir nF k vs) = [] := by
  intro vs
  induction vs with
  | nil => intro k; rfl
  | cons v vs ih =>
    intro k
    simp only [frameOpsLoop, cleanups_append, ih (k + 1)]
    by_cases hk : k = 0
    · simp [hk, cleanups]
    · simp [hk, cleanups_frameOps]

lemma frameOpsLoop_shape (dir : String) (nF : Nat) :
    ∀ (vs : List String) (k : Nat), ∀ op ∈ frameOpsLoop dir nF k vs,
      ∃ i j, op = ⟨[Artifact.frame dir i j], [], [Artifact.frame dir i j]⟩ := by
  intro vs
  induction vs with
  | nil => intro k op hop; exact absurd hop (by simp [frameOpsLoop])
  | cons v vs ih =>
    intro k op hop
    simp only [frameOpsLoop, List.mem_append] at hop
    rcases hop with hop | hop
    · by_cases hk : k = 0
      · rw [if_pos hk] at hop
        exact absurd hop (by simp)
      · rw [if_neg hk] at hop
        rcases List.mem_map.mp hop with ⟨j, _, rfl⟩
        exact ⟨k, j, rfl⟩
    · exact ih (k + 1) op hop

lemma listOpsLoop_shape :
    ∀ (vs : List String) (k : Nat), ∀ op ∈ listOpsLoop k vs,
      op = ⟨[], [], []⟩ ∨
        ∃ i, op = ⟨[Artifact.clip i], [Artifact.clip i], [Artifact.clip i]⟩ := by
  intro vs
  induction vs with
  | nil => intro k op hop; exact absurd hop (by simp [listOpsLoop])
  | cons v vs ih =>
    intro k op hop
    simp only [listOpsLoop, List.mem_append] at hop
    rcases hop with (hop | hop) | hop
    · by_cases hk : k > 0
      · rw [if_pos hk] at hop
        rcases List.mem_cons.mp hop with rfl | hop
        · exact Or.inr ⟨k, rfl⟩
        · exact Or.inl (List.mem_singleton.mp hop)
      · rw [if_neg hk] at hop
        exact absurd hop (by simp)
    · exact Or.inl (List.mem_singleton.mp hop)
    · exact ih (k + 1) op hop

lemma goodOps_mainOps (cfg : Config) (videos : List String) (out : String) :
    goodOps (mainOps cfg videos out) [] := by
  have hassoc : mainOps cfg videos out =
      [(⟨[], [], []⟩ : Op), ⟨[], [], []⟩] ++
        ((if cfg.source.length = 0 then [(⟨[], [], []⟩ : Op)] else []) ++
          ([⟨[.intermediateDir cfg.dest.intermediateTextDir],
             [.intermediateDir cfg.dest.intermediateTextDir], []⟩, ⟨[], [], []⟩] ++
            (frameOpsLoop cfg.dest.intermediateTextDir (numFrames cfg).toNat 0 videos ++
              ([⟨[Artifact.filelist], [Artifact.filelist], []⟩] ++
                (listOpsLoop 0 videos ++
                  [⟨[], [], []⟩, ⟨[.output out], [], [.output out]⟩]))))) := by
    simp [mainOps, List.append_assoc]
  rw [hassoc]
  apply goodOps_append
  · simp [goodOps]
  · apply goodOps_append
    · by_cases hs : cfg.source.length = 0
      · rw [if_pos hs]
        simp [goodOps]
      · rw [if_neg hs]
        trivial
    · apply goodOps_append
      · simp [goodOps, covers, removesWith]
      · apply goodOps_append
        · apply goodOps_of_covered [Artifact.intermediateDir cfg.dest.intermediateTextDir]
          · intro d hd
            have hd' := List.mem_singleton.mp hd
            subst hd'
            by_cases hs : cfg.source.length = 0 <;> simp [hs, cleanups]
          · intro op hop
            rcases frameOpsLoop_shape cfg.dest.intermediateTextDir
              (numFrames cfg).toNat videos 0 op hop with ⟨i, j, rfl⟩
            constructor
            · intro a ha
              have ha' := List.mem_singleton.mp ha
              subst ha'
              exact Or.inl (by simp [covers, removesWith])
            · intro a ha
              have ha' := List.mem_singleton.mp ha
              subst ha'
              exact Or.inl (by simp [covers, removesWith])
        · rw [cleanups_frameOpsLoop]
          apply goodOps_append
          · simp [goodOps, covers, removesWith]
          · apply goodOps_append
            · apply goodOps_of_covered []
              · intro d hd
                exact absurd hd (by simp)
              · intro op hop
                rcases listOpsLoop_shape videos 0 op hop with rfl | ⟨i, rfl⟩
                · constructor
                  · intro a ha
                    exact absurd ha (by simp)
                  · intro a ha
                    exact absurd ha (by simp)
                · constructor
                  · intro a ha
                    have ha' := List.mem_singleton.mp ha
                    subst ha'
                    exact Or.inr (by simp [covers, removesWith])
                  · intro a ha
                    have ha' := List.mem_singleton.mp ha
                    subst ha'
                    exact Or.inr (by simp [isClip])
            · simp [goodOps, covers, isOutput]

/-- C7 counterexample: with the encode of transition 1 as the first
failing operation, the partially written transition clip it leaves
behind survives the run — `defer os.Remove(textVideo)` is registered
only after `cmd.Run()` succeeds, so nothing removes it. A temporary
artifact (not the output) survives an exit path, refuting the claim as
stated. -/
theorem main_partial_clip_survives :
    Artifact.clip 1 ∈ survivors (runMain okFail7 cfg0 videos0 "o.mp4") ∧
    isOutput (Artifact.clip 1) = false := by
  decide

/-- C7 (amended): on every exit path, the intermediate frame directory
(with all its frames, partial ones included) and the file list are
removed, and so is every transition clip whose encode succeeded; the
only artifacts that can survive are the final output and — only when
the run failed — a transition clip partially written by the failing
encode. -/
theorem main_cleanup_except_failed_clip (cfg : Config) (videos : List String) (out : String)
    (ok : Nat → Bool) (a : Artifact)
    (ha : a ∈ survivors (runMain ok cfg videos out)) :
    isOutput a = true ∨
      (isClip a = true ∧ (runMain ok cfg videos out).failed = true) := by
  have hinv := runOps_inv ok (mainOps cfg videos out) initState
    (by intro x hx; exact absurd hx (by simp [initState]))
    (goodOps_mainOps cfg videos out)
  unfold survivors runMain at ha
  rcases List.mem_filter.mp ha with ⟨hfs, hpred⟩
  rcases hinv a hfs with hcov | hclip
  · simp only [covers, Bool.or_eq_true] at hcov
    rcases hcov with ho | hany
    · exact Or.inl ho
    · simp only [Bool.not_eq_true'] at hpred
      simp [hpred] at hany
  · exact Or.inr hclip

theorem main_cleanup_except_failed_clip_witness :
    isOutput (Artifact.output "o.mp4") = true ∨
      (isClip (Artifact.output "o.mp4") = true ∧
        (runMain okAll cfg0 videos0 "o.mp4").failed = true) :=
  main_cleanup_except_failed_clip cfg0 videos0 "o.mp4" okAll
    (Artifact.output "o.mp4") (by decide)

/-! ### C9: every failure is terminal -/

lemma runOps_stops_at_first_failure (ok : Nat → Bool) :
    ∀ (ops : List Op) (s : ExecState) (k : Nat), k < ops.length →
      (∀ j, s.attempted ≤ j → j < s.attempted + k → ok j = true) →
      ok (s.attempted + k) = false →
      (runOps ok ops s).attempted = s.attempted + k + 1 ∧
        (runOps ok ops s).failed = true := by
  intro ops
  induction ops with
  | nil => intro s k hk; exact absurd hk (by simp)
  | cons op rest ih =>
    intro s k hk hpre hfail
    cases k with
    | zero =>
      have h0 : ok s.attempted = false := by simpa using hfail
      simp only [runOps]
      rw [if_neg (by simp [h0])]
      exact ⟨rfl, rfl⟩
    | succ k =>
      have h1 : ok s.attempted = true := hpre s.attempted (le_refl _) (by omega)
      have hrec := ih
        { fs := s.fs ++ op.creates, cleanup := s.cleanup ++ op.cleanup,
          attempted := s.attempted + 1, failed := s.failed } k
        (by simpa using hk)
        (by intro j hj1 hj2
            have hj1' : s.attempted + 1 ≤ j := hj1
            have hj2' : j < s.attempted + 1 + k := hj2
            exact hpre j (by omega) (by omega))
        (by show ok (s.attempted + 1 + k) = false
            rw [show s.attempted + 1 + k = s.attempted + (k + 1) from by omega]
            exact hfail)
      simp only [runOps]
      rw [if_pos h1]
      refine ⟨?_, hrec.2⟩
      rw [hrec.1]
      show s.attempted + 1 + k + 1 = s.attempted + (k + 1) + 1
      omega

/-- C9: if the k-th fallible operation of the pipeline is the first one
to fail, the run marks failure and attempts exactly the operations
0..k — no later pipeline stage executes, no retries. -/
theorem main_failure_is_terminal (cfg : Config) (videos : List String) (out : String)
    (ok : Nat → Bool) (k : Nat) (hk : k < (mainOps cfg videos out).length)
    (hpre : ∀ j, j < k → ok j = true) (hfail : ok k = false) :
    (runMain ok cfg videos out).attempted = k + 1 ∧
      (runMain ok cfg videos out).failed = true := by
  unfold runMain
  have key := runOps_stops_at_first_failure ok (mainOps cfg videos out) initState k hk
    ?_ ?_
  · simpa [initState] using key
  · intro j hj1 hj2
    apply hpre
    simpa [initState] using hj2
  · simpa [initState] using hfail

theorem main_failure_is_terminal_witness :
    (runMain okFail2 cfgEmptySource videos0 "o.mp4").attempted = 2 + 1 ∧
      (runMain okFail2 cfgEmptySource videos0 "o.mp4").failed = true :=
  main_failure_is_terminal cfgEmptySource videos0 "o.mp4" okFail2 2
    (by decide) (by decide) (by decide)

end VideoMerger
